import Mathlib

/-!
Verification of the simple-list-scraper search-and-match engine
(`backend/cmd/api/main.go`) against its natural-language specification.

Go strings are modelled as `List Char` (one entry per rune); the ASCII
fragment of Go's Unicode case mapping and space classification is used,
which is exact on every input appearing in the program's own constants
and in the concrete inputs below.  Floating-point scores are modelled as
rationals; machine integers as `Int`/`Nat` (no arithmetic here comes
near an overflow boundary).  Fallible external effects (database loads,
the headless browser, the LLM endpoint) are modelled as explicit
`Except`/oracle inputs to the worker.
-/

namespace SLS

theorem length_dropWhile_le (p : α → Bool) (l : List α) :
    (l.dropWhile p).length ≤ l.length := by
  induction l with
  | nil => simp
  | cons a t ih =>
    by_cases h : p a
    · simpa [List.dropWhile_cons, h] using Nat.le_succ_of_le ih
    · simp [List.dropWhile_cons, h]

abbrev GoStr := List Char

/-- Convert a Lean string literal to the Go-string model. -/
def gs (s : String) : GoStr := s.data

/-- ASCII fragment of Go `strings.ToLower` (`unicode.ToLower` per rune). -/
def goToLower (c : Char) : Char :=
  if 'A' ≤ c ∧ c ≤ 'Z' then Char.ofNat (c.toNat + 32) else c

/-- ASCII fragment of Go `strings.ToUpper` (`unicode.ToUpper` per rune). -/
def goToUpper (c : Char) : Char :=
  if 'a' ≤ c ∧ c ≤ 'z' then Char.ofNat (c.toNat - 32) else c

/-- The character class `\s` of Go's `regexp` (RE2): `[\t\n\f\r ]`. -/
def isReSpace (c : Char) : Bool :=
  c = ' ' || c = '\t' || c = '\n' || c = '\x0c' || c = '\r'

/-- ASCII fragment of Go `unicode.IsSpace` (used by `strings.TrimSpace`
and `strings.Fields`): `\t \n \v \f \r ' '`. -/
def goIsSpace (c : Char) : Bool :=
  isReSpace c || c = '\x0b'

/-- The character class `[a-z0-9]`. -/
def isLowerAlnum (c : Char) : Bool :=
  ('a' ≤ c && c ≤ 'z') || ('0' ≤ c && c ≤ '9')

/-- Decimal digit. -/
def isDigitCh (c : Char) : Bool := '0' ≤ c && c ≤ '9'

/-- The word-character class `\w` of RE2: `[0-9A-Za-z_]`. -/
def isWordCh (c : Char) : Bool :=
  ('a' ≤ c && c ≤ 'z') || ('A' ≤ c && c ≤ 'Z') || isDigitCh c || c = '_'

/-- Worker for `replaceRuns`; `inRun` records whether the previous
character was part of a run being replaced. -/
def replaceRunsAux (p : Char → Bool) (r : Char) : Bool → List Char → List Char
  | _, [] => []
  | inRun, c :: cs =>
    if p c then
      if inRun then replaceRunsAux p r true cs
      else r :: replaceRunsAux p r true cs
    else c :: replaceRunsAux p r false cs

/-- Replace every maximal nonempty run of characters satisfying `p` by the
single character `r`.  This is `regexp.ReplaceAllString` for a pattern of
the form `[class]+` with a one-character replacement. -/
def replaceRuns (p : Char → Bool) (r : Char) (l : List Char) : List Char :=
  replaceRunsAux p r false l

/-- Remove trailing characters satisfying `g`. -/
def trimRightP (g : Char → Bool) : List Char → List Char
  | [] => []
  | c :: t =>
    match trimRightP g t with
    | [] => if g c then [] else [c]
    | r => c :: r

/-- Go `strings.TrimSpace` (ASCII fragment): drop leading and trailing
`unicode.IsSpace` characters. -/
def goTrimSpace (s : GoStr) : GoStr :=
  trimRightP goIsSpace (s.dropWhile goIsSpace)

/-- Split at every character satisfying `q`, keeping empty chunks; the
result is always nonempty. -/
def splitSep (q : Char → Bool) : List Char → List (List Char)
  | [] => [[]]
  | c :: t =>
    match splitSep q t with
    | [] => [[c]]
    | h :: r => if q c then [] :: h :: r else (c :: h) :: r

/-- Go `strings.FieldsFunc`: maximal runs of characters not satisfying
the separator predicate `q` (empty chunks dropped). -/
def goFieldsP (q : Char → Bool) (l : List Char) : List (List Char) :=
  (splitSep q l).filter (fun t => !t.isEmpty)

/-- Go `strings.Fields s` = `FieldsFunc s unicode.IsSpace`. -/
def goFields (s : GoStr) : List GoStr := goFieldsP goIsSpace s

/-- Go `strings.Contains h n` (substring test). -/
def goContains (h n : GoStr) : Bool :=
  if n.isPrefixOf h then true
  else
    match h with
    | [] => false
    | _ :: t => goContains t n

/-- `normalize` from main.go:554-561: lowercase, replace `_` and `-` by
spaces, replace every maximal run matching `[^a-z0-9\s]+` by a single
space, `TrimSpace`, then replace every maximal run matching `\s+` by a
single space. -/
def normalize (s : GoStr) : GoStr :=
  let s1 := s.map goToLower
  let s2 := s1.map (fun c => if c = '_' then ' ' else c)
  let s3 := s2.map (fun c => if c = '-' then ' ' else c)
  let s4 := replaceRuns (fun c => !(isLowerAlnum c || isReSpace c)) ' ' s3
  replaceRuns isReSpace ' ' (goTrimSpace s4)

example : normalize (gs "  Hello_World--X  ") = gs "hello world x" := by decide
example : normalize (gs "a.b") = gs "a b" := by decide
example : normalize (gs "Don!!t") = gs "don t" := by decide

/-- The alternation `(19\d{2}|20\d{2})` at four given characters. -/
def yearShape (c1 c2 c3 c4 : Char) : Bool :=
  ((c1 = '1' && c2 = '9') || (c1 = '2' && c2 = '0')) && isDigitCh c3 && isDigitCh c4

/-- Left word boundary `\b` given the preceding character (if any). -/
def yearBoundaryL (prev : Option Char) : Bool :=
  match prev with
  | none => true
  | some p => !isWordCh p

/-- Right word boundary `\b` given the remaining characters. -/
def yearBoundaryR (rest : List Char) : Bool :=
  match rest with
  | [] => true
  | d :: _ => !isWordCh d

/-- Leftmost match of `\b(19\d{2}|20\d{2})\b`, scanning with the
previous character carried for the left boundary. -/
def findYearAux (prev : Option Char) : List Char → Option GoStr
  | [] => none
  | c1 :: rest =>
    match rest with
    | c2 :: c3 :: c4 :: rest2 =>
      if yearShape c1 c2 c3 c4 && yearBoundaryL prev && yearBoundaryR rest2 then
        some [c1, c2, c3, c4]
      else findYearAux (some c1) rest
    | _ => findYearAux (some c1) rest

/-- `extractYear` from main.go:639-647: first 4-digit token in
`[1900..2099]` delimited by word boundaries; `""` if none. -/
def extractYear (s : GoStr) : GoStr := (findYearAux none s).getD []

/-- One attempt of `\s*(19\d{2}|20\d{2})\s*` at the current position:
on success return the input after the match (greedy space runs). -/
def tryYearAt (l : List Char) : Option (List Char) :=
  match l.dropWhile isReSpace with
  | c1 :: c2 :: c3 :: c4 :: rest =>
    if yearShape c1 c2 c3 c4 then some (rest.dropWhile isReSpace) else none
  | _ => none

/-- `ReplaceAllString` of `\s*(19\d{2}|20\d{2})\s*` by a single space,
scanning left to right; the fuel equals the input length, which always
suffices because every match consumes at least four characters. -/
def removeYearScan : Nat → List Char → List Char
  | _, [] => []
  | 0, l => l
  | fuel + 1, c :: t =>
    match tryYearAt (c :: t) with
    | some rest2 => ' ' :: removeYearScan fuel rest2
    | none => c :: removeYearScan fuel t

/-- `removeYear` from main.go:649-653: replace every year (with its
surrounding whitespace) by a space, then `TrimSpace`. -/
def removeYear (s : GoStr) : GoStr := goTrimSpace (removeYearScan s.length s)

example : extractYear (gs "Dune 2021") = gs "2021" := by decide
example : extractYear (gs "Movie 1899") = gs "" := by decide
example : extractYear (gs "Movie 2100") = gs "" := by decide
example : extractYear (gs "x12021y") = gs "" := by decide
example : removeYear (gs "Dune 2021") = gs "Dune" := by decide
example : removeYear (gs "2021 Dune 2022") = gs "Dune" := by decide

/-- `math.Min` on the (finite) rationals. -/
def goMinQ (a b : ℚ) : ℚ := if a ≤ b then a else b

/-- `math.Max` on the (finite) rationals. -/
def goMaxQ (a b : ℚ) : ℚ := if b ≤ a then a else b

/-- `fuzzy.Match` of github.com/lithammer/fuzzysearch: `q` is an
in-order character subsequence of `c`. -/
def fuzzyMatch : GoStr → GoStr → Bool
  | q, [] => q.isEmpty
  | q, c :: cr =>
    match q with
    | [] => true
    | qc :: qr => if qc = c then fuzzyMatch qr cr else fuzzyMatch (qc :: qr) cr

/-- `fuzzyScore` from main.go:563-597 with float64 modelled as `ℚ`:
normalize both, 0 if either empty, 1 if equal, else
`clamp(0.70*overlap + 0.30*contains)` where `overlap` counts query
tokens (with multiplicity) that occur among candidate tokens, and
`contains` is 1 iff `fuzzy.Match q c` or `strings.Contains c q`. -/
def fuzzyScore (query candidate : GoStr) : ℚ :=
  let q := normalize query
  let c := normalize candidate
  if q = [] ∨ c = [] then 0
  else if q = c then 1
  else
    let qt := goFields q
    let ct := goFields c
    let hit := (qt.filter (fun t => decide (t ∈ ct))).length
    let overlap : ℚ := (hit : ℚ) / (qt.length : ℚ)
    let contns : ℚ := if fuzzyMatch q c || goContains c q then 1 else 0
    goMaxQ 0 (goMinQ 1 (7 / 10 * overlap + 3 / 10 * contns))

/-- Evaluation rule for `fuzzyScore` in the blended case, separating
the decidable string computations from the rational arithmetic. -/
theorem fuzzyScore_eval (query candidate q c : GoStr)
    (hq : normalize query = q) (hc : normalize candidate = c)
    (hqe : ¬(q = [] ∨ c = [])) (hne : ¬(q = c))
    (hit len : ℕ)
    (hhit : ((goFields q).filter (fun t => decide (t ∈ goFields c))).length = hit)
    (hlen : (goFields q).length = len) (cb : Bool)
    (hcb : (fuzzyMatch q c || goContains c q) = cb) :
    fuzzyScore query candidate =
      goMaxQ 0 (goMinQ 1
        (7 / 10 * ((hit : ℚ) / (len : ℚ)) + 3 / 10 * (if cb then 1 else 0))) := by
  unfold fuzzyScore
  rw [hq, hc, if_neg hqe, if_neg hne]
  simp only [hhit, hlen, hcb]

example : fuzzyScore (gs "Dune 2021") (gs "dune 2021 1080p") = 1 := by
  rw [fuzzyScore_eval (gs "Dune 2021") (gs "dune 2021 1080p")
      (gs "dune 2021") (gs "dune 2021 1080p") (by decide) (by decide)
      (by decide) (by decide) 2 2 (by decide) (by decide) true (by decide)]
  norm_num [goMaxQ, goMinQ]

/-- The standalone release-quality tokens of main.go:627. -/
def qualityTokens : List GoStr :=
  [gs "TS", gs "CAM", gs "TELECINE", gs "HDCAM", gs "CAMRIP", gs "HDTS"]

/-- `disqualifiedQuality` from main.go:600-635: lowercased title
contains "soundtrack", or title contains "Telesync" (case-sensitive),
or some whitespace token, further split on `.`/`-`/`_`, has an
uppercased sub-token among `qualityTokens`. -/
def disqualifiedQuality (title : GoStr) : Bool :=
  if goContains (title.map goToLower) (gs "soundtrack") then true
  else if goContains title (gs "Telesync") then true
  else
    (goFields title).any (fun t =>
      (goFieldsP (fun r => r = '.' || r = '-' || r = '_') t).any (fun st =>
        decide (st.map goToUpper ∈ qualityTokens)))

example : disqualifiedQuality (gs "Dune.2021.TS.XviD") = true := by decide
example : disqualifiedQuality (gs "CATS") = false := by decide
example : disqualifiedQuality (gs "Movie (Original Motion Picture Soundtrack)") = true := by decide

/-- The `Entity` record of main.go:63-69 (confidence as `ℚ`). -/
structure Entity where
  text : GoStr
  type : GoStr
  startPos : Int
  endPos : Int
  confidence : ℚ
deriving DecidableEq

/-- `findEntityByType` from main.go:655-662: first entity whose
uppercased type contains `entityType` as a substring. -/
def findEntityByType (entities : List Entity) (entityType : GoStr) : Option Entity :=
  entities.find? (fun e => goContains (e.type.map goToUpper) entityType)

/-- Outcome of the entity-matching branch of main.go:397-435: accept
(`matched := true`), reject (`continue`, skipping the fuzzy fallback),
or fall through to the fuzzy fallback (no FILM TITLE entity). -/
inductive EntityOutcome
  | accept
  | reject
  | fallthru
deriving DecidableEq

/-- The entity comparison of main.go:402-434: exact (trimmed,
lowercased) equality of the year-stripped item with the FILM TITLE
entity text, then year confirmation when the item has a year. -/
def entityDecision (entities : List Entity) (itemText : GoStr) : EntityOutcome :=
  match findEntityByType entities (gs "FILM TITLE") with
  | none => .fallthru
  | some ft =>
    let itemTitleLower := (goTrimSpace (removeYear itemText)).map goToLower
    let filmTitleLower := (goTrimSpace ft.text).map goToLower
    if itemTitleLower = filmTitleLower then
      if extractYear itemText = [] then .accept
      else
        match findEntityByType entities (gs "YEAR") with
        | some y => if y.text = extractYear itemText then .accept else .reject
        | none => .reject
    else .reject

/-- The per-candidate match decision of main.go:371-448, returning
`(matched, usedFuzzy)`; `entityRes = none` models an entity-extraction
failure (entities stay empty and the fuzzy fallback runs). -/
def decideMatch (useEntity : Bool) (entityRes : Option (List Entity))
    (itemText title : GoStr) (threshold : ℚ) : Bool × Bool :=
  let entities : List Entity := if useEntity then entityRes.getD [] else []
  if useEntity && !entities.isEmpty then
    match entityDecision entities itemText with
    | .accept => (true, false)
    | .reject => (false, false)
    | .fallthru => (decide (fuzzyScore itemText title ≥ threshold), true)
  else (decide (fuzzyScore itemText title ≥ threshold), true)

/-! ## Match store, worker orchestration, gate, and API handlers -/

/-- The dedup key of the `matches` unique index
`(item_id, matched_url, source_site)` (main.go:1502-1503). -/
structure MatchKey where
  itemId : Int
  url : GoStr
  site : GoStr
deriving DecidableEq

/-- A persisted `matches` row (the columns the worker writes). -/
structure MatchRow where
  key : MatchKey
  matchedText : GoStr
  torrentText : GoStr
  magnetLink : GoStr
  entities : List Entity
  fileSize : GoStr
deriving DecidableEq

abbrev MatchStore := List MatchRow

/-- The file-size denormalization of main.go:876-885: text of the first
entity whose uppercased type is `FILE SIZE` or `FILESIZE`. -/
def extractFileSize (entities : List Entity) : GoStr :=
  match entities.find? (fun e =>
      e.type.map goToUpper = gs "FILE SIZE" || e.type.map goToUpper = gs "FILESIZE") with
  | some e => e.text
  | none => []

/-- `insertMatchWithEntities` from main.go:874-898: insert-if-not-exists
keyed by `(item_id, matched_url, source_site)` (`ON CONFLICT DO
NOTHING`); the returned flag is `RowsAffected > 0`. -/
def insertMatchWithEntities (st : MatchStore) (itemId : Int)
    (matchedText matchedURL sourceSite torrentText magnetLink : GoStr)
    (entities : List Entity) : MatchStore × Bool :=
  let key : MatchKey := ⟨itemId, matchedURL, sourceSite⟩
  if st.any (fun r => r.key = key) then (st, false)
  else
    (st ++ [{ key := key, matchedText := matchedText, torrentText := torrentText,
              magnetLink := magnetLink, entities := entities,
              fileSize := extractFileSize entities }], true)

/-- Observable side effects of a worker run: WebSocket broadcasts and
SMS dispatches, in program order. -/
inductive Event
  | workerStatus (status msg : GoStr)
  | newMatch (item url site torrentText : GoStr)
  | newLog (description : GoStr) (success : Bool)
  | smsSent (item title url site : GoStr)
deriving DecidableEq

/-- An `Item` row (main.go:45-48). -/
structure Item where
  id : Int
  text : GoStr
deriving DecidableEq

/-- A `urls` row (main.go:50-55). -/
structure URLRow where
  id : Int
  url : GoStr
  displayName : GoStr
  config : GoStr
deriving DecidableEq

/-- Environment-derived worker configuration. -/
structure WorkerCfg where
  useEntity : Bool
  threshold : ℚ
  disablePW : Bool
  smsConfigured : Bool

/-- One scraped search result together with the oracles for the
external effects spent on it: the LLM entity-extraction outcome
(`none` = failure) and the magnet-extraction outcome (`[]` = failure,
the match is saved with an empty magnet). -/
structure CandObs where
  title : GoStr
  url : GoStr
  entityRes : Option (List Entity)
  magnet : GoStr
deriving DecidableEq

/-- One site's scrape outcome for one item (`error` = scraper error,
absorbed by the worker). -/
structure SiteObs where
  name : GoStr
  result : Except Unit (List CandObs)

/-- `maxMatchesPerItem` (main.go:302). -/
def maxMatchesPerItem : Nat := 5

/-- The separator flattening of the pre-filter (main.go:351-357):
`.`/`-`/`_` to spaces. -/
def sepToSpace (s : GoStr) : GoStr :=
  ((s.map (fun c => if c = '.' then ' ' else c)).map
      (fun c => if c = '-' then ' ' else c)).map
    (fun c => if c = '_' then ' ' else c)

/-- `strings.Join(strings.Fields(x), " ")` (main.go:360-361). -/
def joinFieldsSp (s : GoStr) : GoStr :=
  List.intercalate [' '] (goFields s)

/-- The contiguous-phrase pre-filter of main.go:344-367: the normalized
year-stripped item must occur as a substring of the normalized,
separator-flattened title. -/
def preFilterPass (itemText title : GoStr) : Bool :=
  let titleForMatching := joinFieldsSp (sepToSpace (normalize title))
  let itemForMatching := joinFieldsSp (sepToSpace (normalize (removeYear itemText)))
  goContains titleForMatching itemForMatching

/-- `maybeSendTwilioSMS` (main.go:910-947): dispatches only when all
four Twilio settings are configured; modelled as an event. -/
def smsEvents (cfg : WorkerCfg) (it : Item) (r : CandObs) (site : GoStr) : List Event :=
  if cfg.smsConfigured then [.smsSent it.text r.title r.url site] else []

/-- The candidate loop of main.go:317-490 for one site's results:
quality gate, pre-filter, match decision, dedup insert, fan-out, and
the per-item cap checked between candidates and after each insert. -/
def processResults (cfg : WorkerCfg) (it : Item) (site : GoStr) :
    List CandObs → MatchStore → Nat → MatchStore × Nat × List Event
  | [], st, n => (st, n, [])
  | r :: rest, st, n =>
    if maxMatchesPerItem ≤ n then (st, n, [])
    else if disqualifiedQuality r.title then processResults cfg it site rest st n
    else if !preFilterPass it.text r.title then processResults cfg it site rest st n
    else
      let dec := decideMatch cfg.useEntity r.entityRes it.text r.title cfg.threshold
      if !dec.1 then processResults cfg it site rest st n
      else
        let ins := insertMatchWithEntities st it.id r.title r.url site r.title r.magnet
            (if cfg.useEntity then r.entityRes.getD [] else [])
        if ins.2 then
          let evs := Event.newMatch it.text r.url site r.title :: smsEvents cfg it r site
          if maxMatchesPerItem ≤ n + 1 then (ins.1, n + 1, evs)
          else
            let next := processResults cfg it site rest ins.1 (n + 1)
            (next.1, next.2.1, evs ++ next.2.2)
        else processResults cfg it site rest ins.1 n

/-- The site loop of main.go:304-491 for one item: cap check before
each search, scraper errors absorbed. -/
def processScrapers (cfg : WorkerCfg) (it : Item) :
    List SiteObs → MatchStore → Nat → MatchStore × Nat × List Event
  | [], st, n => (st, n, [])
  | s :: rest, st, n =>
    if maxMatchesPerItem ≤ n then (st, n, [])
    else
      match s.result with
      | .error _ => processScrapers cfg it rest st n
      | .ok results =>
        let step := processResults cfg it s.name results st n
        let next := processScrapers cfg it rest step.1 step.2.1
        (next.1, next.2.1, step.2.2 ++ next.2.2)

abbrev LogStore := List (GoStr × Bool)

/-- The per-item log description of main.go:495. -/
def logDescription (it : Item) (n : Nat) : GoStr :=
  gs "Item '" ++ it.text ++ gs "' completed with " ++ gs (toString n) ++ gs " match(es)"

/-- Per-item processing (main.go:300-508): run all sites, then insert
exactly one log row with `success = matchesFound > 0` and broadcast
`new_log`.  The database is modelled as always reachable, so the
log-insert error branch of main.go:496-497 does not arise. -/
def processItem (cfg : WorkerCfg) (it : Item) (sites : List SiteObs)
    (st : MatchStore) (logs : LogStore) : MatchStore × LogStore × List Event :=
  let run := processScrapers cfg it sites st 0
  let success := decide (0 < run.2.1)
  let desc := logDescription it run.2.1
  (run.1, logs ++ [(desc, success)], run.2.2 ++ [.newLog desc success])

/-- `displayName` fallback of main.go:277-281. -/
def scraperName (u : URLRow) : GoStr :=
  if u.displayName = [] then u.url else u.displayName

/-- The item loop of main.go:300-508. -/
def processItems (cfg : WorkerCfg) (scrape : Item → URLRow → Except Unit (List CandObs))
    (urls : List URLRow) :
    List Item → MatchStore → LogStore → MatchStore × LogStore × List Event
  | [], st, logs => (st, logs, [])
  | it :: rest, st, logs =>
    let r := processItem cfg it (urls.map fun u => ⟨scraperName u, scrape it u⟩) st logs
    let next := processItems cfg scrape urls rest r.1 r.2.1
    (next.1, next.2.1, r.2.2 ++ next.2.2)

/-- Oracles for the worker's external effects: database loads, the
Playwright runtime, and per-(item, site) scrapes. -/
structure WorkerEnv where
  itemsRes : Except Unit (List Item)
  urlsRes : Except Unit (List URLRow)
  pwOk : Bool
  scrape : Item → URLRow → Except Unit (List CandObs)

/-- The body of `runWorker` after the CAS succeeded (main.go:249-511),
covering every early-return exit path (load failure, no items, no
urls, Playwright startup failure). -/
def runWorkerBody (cfg : WorkerCfg) (env : WorkerEnv)
    (st : MatchStore) (logs : LogStore) : MatchStore × LogStore × List Event :=
  let ev0 : List Event := [.workerStatus (gs "running") (gs "Worker started")]
  match env.itemsRes with
  | .error _ => (st, logs, ev0)
  | .ok items =>
    if items.isEmpty then (st, logs, ev0)
    else
      match env.urlsRes with
      | .error _ => (st, logs, ev0)
      | .ok urls =>
        if urls.isEmpty then (st, logs, ev0)
        else if !cfg.disablePW && !env.pwOk then (st, logs, ev0)
        else
          let r := processItems cfg env.scrape urls items st logs
          (r.1, r.2.1, ev0 ++ r.2.2)

/-- `runWorker` (main.go:239-511): compare-and-swap on the running
flag; on CAS failure return immediately; otherwise run the body, and —
as the deferred function does on every exit path — release the flag
and broadcast `worker_status=completed`. -/
def runWorker (running : Bool) (cfg : WorkerCfg) (env : WorkerEnv)
    (st : MatchStore) (logs : LogStore) : Bool × MatchStore × LogStore × List Event :=
  if running then (running, st, logs, [])
  else
    let r := runWorkerBody cfg env st logs
    (false, r.1, r.2.1,
      r.2.2 ++ [.workerStatus (gs "completed") (gs "Worker finished")])

/-- Shared gate state: the atomic `workerRunning` flag plus the number
of worker bodies currently executing. -/
structure GateState where
  running : Bool
  active : Nat
deriving DecidableEq

/-- Interleaved transitions of the gate (main.go:240-247): a successful
CAS enters the body, a failed CAS returns at once, and a finishing body
stores `false` (and broadcasts `completed`). -/
inductive GateStep : GateState → GateState → Prop
  | enter (s : GateState) : s.running = false → GateStep s ⟨true, s.active + 1⟩
  | enterFail (s : GateState) : s.running = true → GateStep s s
  | exitRun (s : GateState) : 1 ≤ s.active → GateStep s ⟨false, s.active - 1⟩

/-- States reachable from the boot state (flag clear, nothing running). -/
inductive GateReachable : GateState → Prop
  | init : GateReachable ⟨false, 0⟩
  | step {s t : GateState} : GateReachable s → GateStep s t → GateReachable t

/-- `triggerWorkerHandler` (main.go:1348-1374): observe the flag; if
set, answer `already_running` without invoking the worker (the third
component records whether `go runWorker()` is issued). -/
def triggerWorkerHandler (running : Bool) : GoStr × GoStr × Bool :=
  if running then (gs "already_running", gs "Worker is already running", false)
  else (gs "triggered", gs "Worker triggered successfully", true)

/-! ## API handlers for items and matches -/

/-- The `items` table together with its serial-id sequence. -/
structure ItemsTable where
  rows : List (Int × GoStr)
  nextId : Int
deriving DecidableEq

/-- JSON bodies produced by the handlers under scrutiny. -/
inductive ApiBody
  | idBody (id : Int)
  | errorBody (msg : GoStr)
  | okBody
  | plainText (msg : GoStr)
deriving DecidableEq

/-- POST branch of `itemsHandler` (main.go:972-1004): trim, reject
empty, look up a row with the same text (409 on hit), else insert and
answer 201 with `res.LastInsertId()`.  The lib/pq postgres driver
(main.go:27) does not support `LastInsertId`: it returns `(0, error)`,
and main.go:1002 discards the error, so the 201 body always carries
id 0 — never the newly created row's serial id. -/
def itemsHandlerPost (tab : ItemsTable) (text : GoStr) : ItemsTable × Nat × ApiBody :=
  let t := goTrimSpace text
  if t = [] then (tab, 400, .plainText (gs "text required"))
  else
    match tab.rows.find? (fun r => r.2 = t) with
    | some _ => (tab, 409, .errorBody (gs "Item already exists"))
    | none =>
      ({ rows := tab.rows ++ [(tab.nextId, t)], nextId := tab.nextId + 1 },
        201, .idBody 0)

/-- DELETE branch of `itemHandler` (main.go:1011-1048): non-positive
ids are rejected while parsing; otherwise delete (matches cascade via
the foreign key) and answer `{ok:true}` regardless of `RowsAffected`. -/
def itemHandlerDelete (items : List (Int × GoStr)) (ms : MatchStore) (id : Int) :
    (List (Int × GoStr) × MatchStore) × Nat × ApiBody :=
  if id ≤ 0 then ((items, ms), 400, .plainText (gs "invalid id"))
  else
    ((items.filter (fun r => !(r.1 = id)), ms.filter (fun m => !(m.key.itemId = id))),
      200, .okBody)

/-- `matchHandler` DELETE (main.go:1308-1335): delete by row id and
answer `{ok:true}` regardless of `RowsAffected`. -/
def matchHandlerDelete (rows : List (Int × MatchRow)) (id : Int) :
    List (Int × MatchRow) × Nat × ApiBody :=
  (rows.filter (fun r => !(r.1 = id)), 200, .okBody)


/-! ## Theorems -/

/-- Number of rows of the store carrying the key `k`. -/
def countKey (st : MatchStore) (k : MatchKey) : Nat :=
  (st.filter (fun r => r.key = k)).length

theorem insertMatch_pos (st : MatchStore) (itemId : Int)
    (mt murl ssite tt ml : GoStr) (ents : List Entity)
    (h : st.any (fun r => r.key = (⟨itemId, murl, ssite⟩ : MatchKey)) = true) :
    insertMatchWithEntities st itemId mt murl ssite tt ml ents = (st, false) := by
  unfold insertMatchWithEntities
  simp only [h, if_true]

theorem insertMatch_neg (st : MatchStore) (itemId : Int)
    (mt murl ssite tt ml : GoStr) (ents : List Entity)
    (h : ¬ st.any (fun r => r.key = (⟨itemId, murl, ssite⟩ : MatchKey)) = true) :
    insertMatchWithEntities st itemId mt murl ssite tt ml ents =
      (st ++ [⟨⟨itemId, murl, ssite⟩, mt, tt, ml, ents, extractFileSize ents⟩], true) := by
  unfold insertMatchWithEntities
  simp only [Bool.not_eq_true] at h
  simp only [h, Bool.false_eq_true, if_false]

/-- C1: match insertion is deduplicated by (item id, matched URL,
source site): the inserted flag is true exactly when no row with that
key exists, a true flag appends exactly one row with that key, a false
flag leaves the store unchanged; processing a candidate whose key is
already stored dispatches no SMS and broadcasts no `new_match` (and
changes nothing); and insertion preserves at-most-one-row-per-key. -/
theorem C1_match_insert_dedup :
    (∀ st itemId mt murl ssite tt ml ents,
      ((insertMatchWithEntities st itemId mt murl ssite tt ml ents).2 = true ↔
        ∀ r ∈ st, r.key ≠ ⟨itemId, murl, ssite⟩) ∧
      ((insertMatchWithEntities st itemId mt murl ssite tt ml ents).2 = true →
        ∃ row, (insertMatchWithEntities st itemId mt murl ssite tt ml ents).1 = st ++ [row] ∧
          row.key = ⟨itemId, murl, ssite⟩) ∧
      ((insertMatchWithEntities st itemId mt murl ssite tt ml ents).2 = false →
        (insertMatchWithEntities st itemId mt murl ssite tt ml ents).1 = st)) ∧
    (∀ cfg it site r st n,
      (∃ m ∈ st, m.key = ⟨it.id, r.url, site⟩) →
      processResults cfg it site [r] st n = (st, n, [])) ∧
    (∀ st itemId mt murl ssite tt ml ents k,
      countKey st k ≤ 1 →
      countKey (insertMatchWithEntities st itemId mt murl ssite tt ml ents).1 k ≤ 1) := by
  refine ⟨?_, ?_, ?_⟩
  · intro st itemId mt murl ssite tt ml ents
    by_cases h : st.any (fun r => r.key = (⟨itemId, murl, ssite⟩ : MatchKey)) = true
    · rw [insertMatch_pos st itemId mt murl ssite tt ml ents h]
      simp only [List.any_eq_true, decide_eq_true_eq] at h
      obtain ⟨r, hr, hk⟩ := h
      refine ⟨?_, ?_, fun _ => rfl⟩
      · constructor
        · intro hf; cases hf
        · intro hall; exact absurd hk (hall r hr)
      · intro hf; cases hf
    · rw [insertMatch_neg st itemId mt murl ssite tt ml ents h]
      refine ⟨?_, fun _ => ⟨_, rfl, rfl⟩, ?_⟩
      · constructor
        · intro _ r hr hk
          exact h (List.any_eq_true.mpr ⟨r, hr, by simpa using hk⟩)
        · intro _; rfl
      · intro hf; cases hf
  · intro cfg it site r st n h
    have hany : st.any (fun m => m.key = (⟨it.id, r.url, site⟩ : MatchKey)) = true := by
      simp only [List.any_eq_true, decide_eq_true_eq]
      exact h
    simp only [processResults, insertMatch_pos _ _ _ _ _ _ _ _ hany]
    split_ifs <;> simp_all [processResults]
  · intro st itemId mt murl ssite tt ml ents k hcount
    by_cases h : st.any (fun r => r.key = (⟨itemId, murl, ssite⟩ : MatchKey)) = true
    · rw [insertMatch_pos _ _ _ _ _ _ _ _ h]
      exact hcount
    · rw [insertMatch_neg _ _ _ _ _ _ _ _ h]
      have hnone : ∀ r ∈ st, r.key ≠ (⟨itemId, murl, ssite⟩ : MatchKey) := by
        intro r hr hkey
        exact h (List.any_eq_true.mpr ⟨r, hr, by simpa using hkey⟩)
      unfold countKey at *
      rw [List.filter_append, List.length_append]
      by_cases hk : (⟨itemId, murl, ssite⟩ : MatchKey) = k
      · have hempty : st.filter (fun r => r.key = k) = [] := by
          apply List.filter_eq_nil_iff.mpr
          intro r hr
          simp only [decide_eq_true_eq]
          rw [← hk]
          exact hnone r hr
        rw [hempty]
        simpa using List.length_filter_le _
          [(⟨⟨itemId, murl, ssite⟩, mt, tt, ml, ents, extractFileSize ents⟩ : MatchRow)]
      · have hone : ([(⟨⟨itemId, murl, ssite⟩, mt, tt, ml, ents,
            extractFileSize ents⟩ : MatchRow)].filter (fun r => r.key = k)) = [] := by
          simp [hk]
        rw [hone]
        simpa using hcount

/-- C1 witness: a duplicate insert at a concrete store returns
`inserted = false`, and processing the duplicate candidate emits no
events and changes nothing. -/
theorem C1_match_insert_dedup_witness :
    (∃ m ∈ ([⟨⟨7, gs "u", gs "s"⟩, gs "T", gs "T", [], [], []⟩] : MatchStore),
      m.key = (⟨7, gs "u", gs "s"⟩ : MatchKey)) ∧
    processResults ⟨false, 0, false, false⟩ ⟨7, gs "Dune"⟩ (gs "s")
        [⟨gs "T", gs "u", none, []⟩]
        [⟨⟨7, gs "u", gs "s"⟩, gs "T", gs "T", [], [], []⟩] 0 =
      ([⟨⟨7, gs "u", gs "s"⟩, gs "T", gs "T", [], [], []⟩], 0, []) := by
  refine ⟨⟨_, List.mem_singleton_self _, rfl⟩, ?_⟩
  exact C1_match_insert_dedup.2.1 ⟨false, 0, false, false⟩ ⟨7, gs "Dune"⟩ (gs "s")
    ⟨gs "T", gs "u", none, []⟩ _ 0 ⟨_, List.mem_singleton_self _, rfl⟩

/-- The gate invariant: the number of executing worker bodies matches
the flag. -/
def gateInv (s : GateState) : Prop := s.active = cond s.running 1 0

theorem gateInv_preserved {s t : GateState} (h : gateInv s) (hs : GateStep s t) :
    gateInv t := by
  cases hs with
  | enter hr =>
    have h0 : s.active = 0 := by
      unfold gateInv at h
      rw [hr] at h
      exact h
    unfold gateInv
    show s.active + 1 = 1
    omega
  | enterFail hr => exact h
  | exitRun ha =>
    unfold gateInv at h ⊢
    show s.active - 1 = 0
    cases hrun : s.running with
    | true => rw [hrun] at h; simp only [Bool.cond_true] at h; omega
    | false => rw [hrun] at h; simp only [Bool.cond_false] at h; omega

theorem gateInv_reachable {s : GateState} (h : GateReachable s) : gateInv s := by
  induction h with
  | init => rfl
  | step _ hs ih => exact gateInv_preserved ih hs

/-- C2: the worker is single-flight: every reachable gate state has at
most one body executing; a trigger observed while the flag is set
answers `already_running` without invoking the worker; no transition
taken while the flag is set increases the number of executing bodies;
and a run entered with a clear flag always ends with the flag clear and
with `worker_status=completed` as its final broadcast, on every exit
path. -/
theorem C2_worker_single_flight :
    (∀ s, GateReachable s → s.active ≤ 1) ∧
    (triggerWorkerHandler true =
      (gs "already_running", gs "Worker is already running", false)) ∧
    (∀ s t, s.running = true → GateStep s t → t.active ≤ s.active) ∧
    (∀ cfg env st logs,
      (runWorker false cfg env st logs).1 = false ∧
      (runWorker false cfg env st logs).2.2.2.getLast? =
        some (.workerStatus (gs "completed") (gs "Worker finished"))) := by
  refine ⟨?_, rfl, ?_, ?_⟩
  · intro s h
    have hinv := gateInv_reachable h
    unfold gateInv at hinv
    cases hrun : s.running with
    | true => rw [hrun] at hinv; simp only [Bool.cond_true] at hinv; omega
    | false => rw [hrun] at hinv; simp only [Bool.cond_false] at hinv; omega
  · intro s t hr hs
    cases hs with
    | enter h => rw [h] at hr; cases hr
    | enterFail h => exact Nat.le_refl _
    | exitRun h =>
      show s.active - 1 ≤ s.active
      exact Nat.sub_le _ _
  · intro cfg env st logs
    have hrw : runWorker false cfg env st logs =
        (false, (runWorkerBody cfg env st logs).1, (runWorkerBody cfg env st logs).2.1,
          (runWorkerBody cfg env st logs).2.2 ++
            [.workerStatus (gs "completed") (gs "Worker finished")]) := rfl
    rw [hrw]
    exact ⟨rfl, List.getLast?_concat _⟩

/-- C2 witness: from boot, one successful CAS reaches a running state
with a single body; the bound, the non-increase while running, and the
completed-broadcast guarantee are instantiated there. -/
theorem C2_worker_single_flight_witness :
    GateReachable ⟨true, 1⟩ ∧ (⟨true, 1⟩ : GateState).active ≤ 1 ∧
    ((⟨true, 1⟩ : GateState).running = true ∧
      GateStep ⟨true, 1⟩ ⟨true, 1⟩ ∧ (1 : Nat) ≤ 1) ∧
    ((runWorker false ⟨false, 0, false, false⟩
        ⟨.error (), .error (), false, fun _ _ => .error ()⟩ [] []).1 = false ∧
      (runWorker false ⟨false, 0, false, false⟩
        ⟨.error (), .error (), false, fun _ _ => .error ()⟩ [] []).2.2.2.getLast? =
        some (.workerStatus (gs "completed") (gs "Worker finished"))) := by
  have hreach : GateReachable ⟨true, 1⟩ :=
    .step .init (GateStep.enter ⟨false, 0⟩ rfl)
  have hstep : GateStep (⟨true, 1⟩ : GateState) ⟨true, 1⟩ :=
    GateStep.enterFail _ rfl
  exact ⟨hreach, C2_worker_single_flight.1 _ hreach,
    ⟨rfl, hstep, C2_worker_single_flight.2.2.1 _ _ rfl hstep⟩,
    C2_worker_single_flight.2.2.2 _ _ [] []⟩

/-- The property stated by the specification for the quality
disqualifier, written as a predicate. -/
def disqualifySpec (title : GoStr) : Prop :=
  goContains (title.map goToLower) (gs "soundtrack") = true ∨
  goContains title (gs "Telesync") = true ∨
  ∃ t ∈ goFields title,
    ∃ st ∈ goFieldsP (fun r => r = '.' || r = '-' || r = '_') t,
      st.map goToUpper ∈ qualityTokens

/-- C7: `disqualifiedQuality` returns true exactly when the lowercased
title contains "soundtrack", or the title contains "Telesync"
case-sensitively, or some whitespace token split on `.`/`-`/`_` has an
uppercased sub-token among TS, CAM, TELECINE, HDCAM, CAMRIP, HDTS; and
`CATS`, whose only sub-token merely contains TS, is not disqualified. -/
theorem C7_quality_disqualifier :
    (∀ title, disqualifiedQuality title = true ↔ disqualifySpec title) ∧
    disqualifiedQuality (gs "CATS") = false := by
  refine ⟨?_, by decide⟩
  intro title
  unfold disqualifiedQuality disqualifySpec
  split_ifs with h1 h2
  · exact iff_of_true rfl (Or.inl h1)
  · exact iff_of_true rfl (Or.inr (Or.inl h2))
  · simp [h1, h2, List.any_eq_true]

/-- C9 counterexample: at a concrete table the fresh POST creates the
row `(2, "b")` but answers 201 with body id 0 — `lib/pq` does not
support `LastInsertId` and main.go:1002 discards its error — so the
201 body does not carry the newly created row's id as the claim
states. -/
theorem C9_post_items_counterexample :
    itemsHandlerPost ⟨[(1, gs "a")], 2⟩ (gs "b") =
      (⟨[(1, gs "a"), (2, gs "b")], 3⟩, 201, .idBody 0) ∧
    ¬ (itemsHandlerPost ⟨[(1, gs "a")], 2⟩ (gs "b")).2.2 = .idBody 2 := by
  exact ⟨by decide, by decide⟩

/-- C9 (amended): POST /api/items with a (trimmed, non-empty) text
matching an existing row answers 409 `{error:"Item already exists"}`
and inserts nothing; with a fresh non-empty text it appends a row
under the next serial id and answers 201 whose body carries id 0 (the
discarded-error result of `LastInsertId` under the lib/pq driver),
not the newly created row's id. -/
theorem C9_post_items_handler :
    (∀ tab text, goTrimSpace text ≠ [] →
      (∃ r ∈ tab.rows, r.2 = goTrimSpace text) →
      itemsHandlerPost tab text = (tab, 409, .errorBody (gs "Item already exists"))) ∧
    (∀ tab text, goTrimSpace text ≠ [] →
      (∀ r ∈ tab.rows, r.2 ≠ goTrimSpace text) →
      itemsHandlerPost tab text =
        (⟨tab.rows ++ [(tab.nextId, goTrimSpace text)], tab.nextId + 1⟩,
          201, .idBody 0)) := by
  constructor
  · intro tab text hne hdup
    obtain ⟨r, hr, hrt⟩ := hdup
    simp only [itemsHandlerPost]
    rw [if_neg hne]
    cases hf : tab.rows.find? (fun x => x.2 = goTrimSpace text) with
    | none =>
      exfalso
      have := List.find?_eq_none.mp hf r hr
      simp [hrt] at this
    | some v => rfl
  · intro tab text hne hfresh
    simp only [itemsHandlerPost]
    rw [if_neg hne]
    have hf : tab.rows.find? (fun x => x.2 = goTrimSpace text) = none := by
      apply List.find?_eq_none.mpr
      intro x hx
      simp only [decide_eq_true_eq]
      exact hfresh x hx
    rw [hf]

/-- C9 witness: a duplicate POST answers 409 without inserting, and a
fresh POST appends the row under the next serial id while answering
201 with body id 0, at a concrete table. -/
theorem C9_post_items_handler_witness :
    (goTrimSpace (gs "a") ≠ [] ∧
      itemsHandlerPost ⟨[(1, gs "a")], 2⟩ (gs "a") =
        (⟨[(1, gs "a")], 2⟩, 409, .errorBody (gs "Item already exists"))) ∧
    itemsHandlerPost ⟨[(1, gs "a")], 2⟩ (gs "b") =
      (⟨[(1, gs "a"), (2, gs "b")], 3⟩, 201, .idBody 0) := by
  constructor
  · refine ⟨by decide, ?_⟩
    have h := C9_post_items_handler.1 ⟨[(1, gs "a")], 2⟩ (gs "a") (by decide)
      ⟨(1, gs "a"), by decide, by decide⟩
    simpa using h
  · have h := C9_post_items_handler.2 ⟨[(1, gs "a")], 2⟩ (gs "b") (by decide)
      (by decide)
    simpa using h

/-- C10: for every positive id, DELETE /api/items/{id} and DELETE
/api/matches/{id} answer 200 `{ok:true}` whether or not a row with
that id exists; in particular deleting a nonexistent id succeeds and
changes nothing. -/
theorem C10_delete_handlers_ok :
    (∀ items ms id, 0 < id →
      itemHandlerDelete items ms id =
        ((items.filter (fun r => !(r.1 = id)), ms.filter (fun m => !(m.key.itemId = id))),
          200, .okBody)) ∧
    (∀ rows id, 0 < id →
      matchHandlerDelete rows id = (rows.filter (fun r => !(r.1 = id)), 200, .okBody)) ∧
    (∀ items ms id, 0 < id → (∀ r ∈ items, r.1 ≠ id) → (∀ m ∈ ms, m.key.itemId ≠ id) →
      itemHandlerDelete items ms id = ((items, ms), 200, .okBody)) ∧
    (∀ rows id, 0 < id → (∀ r ∈ rows, r.1 ≠ id) →
      matchHandlerDelete rows id = (rows, 200, .okBody)) := by
  refine ⟨?_, ?_, ?_, ?_⟩
  · intro items ms id hid
    unfold itemHandlerDelete
    rw [if_neg (by omega)]
  · intro rows id _
    rfl
  · intro items ms id hid hitems hms
    unfold itemHandlerDelete
    rw [if_neg (by omega)]
    have h1 : items.filter (fun r => !(r.1 = id)) = items :=
      List.filter_eq_self.mpr (fun x hx => by simpa using hitems x hx)
    have h2 : ms.filter (fun m => !(m.key.itemId = id)) = ms :=
      List.filter_eq_self.mpr (fun x hx => by simpa using hms x hx)
    rw [h1, h2]
  · intro rows id _ hrows
    unfold matchHandlerDelete
    have h1 : rows.filter (fun r => !(r.1 = id)) = rows :=
      List.filter_eq_self.mpr (fun x hx => by simpa using hrows x hx)
    rw [h1]

/-- C10 witness: deleting id 5 from concrete stores that lack it
answers `{ok:true}` and leaves them unchanged. -/
theorem C10_delete_handlers_ok_witness :
    ((0 : Int) < 5 ∧
      itemHandlerDelete [(1, gs "a")] [] 5 = (([(1, gs "a")], []), 200, .okBody)) ∧
    matchHandlerDelete ([] : List (Int × MatchRow)) 5 = ([], 200, .okBody) := by
  constructor
  · refine ⟨by decide, ?_⟩
    exact C10_delete_handlers_ok.2.2.1 [(1, gs "a")] [] 5 (by decide)
      (by decide) (by intro m hm; cases hm)
  · exact C10_delete_handlers_ok.2.2.2 [] 5 (by decide) (by intro r hr; cases hr)


theorem insertMatch_true_length (st : MatchStore) (itemId : Int)
    (mt murl ssite tt ml : GoStr) (ents : List Entity)
    (h : (insertMatchWithEntities st itemId mt murl ssite tt ml ents).2 = true) :
    (insertMatchWithEntities st itemId mt murl ssite tt ml ents).1.length =
      st.length + 1 := by
  by_cases hany : st.any (fun r => r.key = (⟨itemId, murl, ssite⟩ : MatchKey)) = true
  · rw [insertMatch_pos _ _ _ _ _ _ _ _ hany] at h
    cases h
  · rw [insertMatch_neg _ _ _ _ _ _ _ _ hany]
    simp

theorem insertMatch_false_store (st : MatchStore) (itemId : Int)
    (mt murl ssite tt ml : GoStr) (ents : List Entity)
    (h : ¬ (insertMatchWithEntities st itemId mt murl ssite tt ml ents).2 = true) :
    (insertMatchWithEntities st itemId mt murl ssite tt ml ents).1 = st := by
  by_cases hany : st.any (fun r => r.key = (⟨itemId, murl, ssite⟩ : MatchKey)) = true
  · rw [insertMatch_pos _ _ _ _ _ _ _ _ hany]
  · rw [insertMatch_neg _ _ _ _ _ _ _ _ hany] at h
    simp at h

theorem processResults_cap_stop (cfg : WorkerCfg) (it : Item) (site : GoStr)
    (r : CandObs) (rest : List CandObs) (st : MatchStore) (n : Nat)
    (hcap : maxMatchesPerItem ≤ n) :
    processResults cfg it site (r :: rest) st n = (st, n, []) := by
  simp only [processResults, if_pos hcap]

theorem processScrapers_cap_stop (cfg : WorkerCfg) (it : Item)
    (s : SiteObs) (rest : List SiteObs) (st : MatchStore) (n : Nat)
    (hcap : maxMatchesPerItem ≤ n) :
    processScrapers cfg it (s :: rest) st n = (st, n, []) := by
  simp only [processScrapers, if_pos hcap]

theorem processResults_cap (cfg : WorkerCfg) (it : Item) (site : GoStr) :
    ∀ (cands : List CandObs) (st : MatchStore) (n : Nat), n ≤ 5 →
      n ≤ (processResults cfg it site cands st n).2.1 ∧
      (processResults cfg it site cands st n).2.1 ≤ 5 ∧
      (processResults cfg it site cands st n).1.length + n =
        st.length + (processResults cfg it site cands st n).2.1 := by
  intro cands
  induction cands with
  | nil =>
    intro st n h
    exact ⟨Nat.le_refl _, h, rfl⟩
  | cons r rest ih =>
    intro st n h
    by_cases hcap : maxMatchesPerItem ≤ n
    · rw [processResults_cap_stop cfg it site r rest st n hcap]
      exact ⟨Nat.le_refl _, h, rfl⟩
    · simp only [processResults, if_neg hcap]
      by_cases hdq : disqualifiedQuality r.title = true
      · rw [if_pos hdq]; exact ih st n h
      · rw [if_neg hdq]
        by_cases hpf : (!preFilterPass it.text r.title) = true
        · rw [if_pos hpf]; exact ih st n h
        · rw [if_neg hpf]
          by_cases hm : (!(decideMatch cfg.useEntity r.entityRes it.text r.title
              cfg.threshold).1) = true
          · rw [if_pos hm]; exact ih st n h
          · rw [if_neg hm]
            by_cases hins : (insertMatchWithEntities st it.id r.title r.url site r.title
                r.magnet (if cfg.useEntity then r.entityRes.getD [] else [])).2 = true
            · rw [if_pos hins]
              have hlen := insertMatch_true_length st it.id r.title r.url site r.title
                r.magnet (if cfg.useEntity then r.entityRes.getD [] else []) hins
              by_cases hcap2 : maxMatchesPerItem ≤ n + 1
              · rw [if_pos hcap2]
                dsimp only
                refine ⟨Nat.le_succ _, ?_, ?_⟩
                · have : maxMatchesPerItem = 5 := rfl
                  omega
                · rw [hlen]
                  omega
              · rw [if_neg hcap2]
                have hn1 : n + 1 ≤ 5 := by
                  have : maxMatchesPerItem = 5 := rfl
                  omega
                obtain ⟨ih1, ih2, ih3⟩ := ih _ (n + 1) hn1
                dsimp only
                refine ⟨by omega, ih2, ?_⟩
                rw [hlen] at ih3
                omega
            · rw [if_neg hins]
              have hst := insertMatch_false_store st it.id r.title r.url site r.title
                r.magnet (if cfg.useEntity then r.entityRes.getD [] else []) hins
              rw [hst]
              exact ih st n h

theorem processScrapers_cap (cfg : WorkerCfg) (it : Item) :
    ∀ (sites : List SiteObs) (st : MatchStore) (n : Nat), n ≤ 5 →
      n ≤ (processScrapers cfg it sites st n).2.1 ∧
      (processScrapers cfg it sites st n).2.1 ≤ 5 ∧
      (processScrapers cfg it sites st n).1.length + n =
        st.length + (processScrapers cfg it sites st n).2.1 := by
  intro sites
  induction sites with
  | nil =>
    intro st n h
    exact ⟨Nat.le_refl _, h, rfl⟩
  | cons s rest ih =>
    intro st n h
    by_cases hcap : maxMatchesPerItem ≤ n
    · rw [processScrapers_cap_stop cfg it s rest st n hcap]
      exact ⟨Nat.le_refl _, h, rfl⟩
    · simp only [processScrapers, if_neg hcap]
      cases hres : s.result with
      | error e => exact ih st n h
      | ok results =>
        dsimp only
        obtain ⟨p1, p2, p3⟩ := processResults_cap cfg it s.name results st n h
        obtain ⟨q1, q2, q3⟩ := ih (processResults cfg it s.name results st n).1
          (processResults cfg it s.name results st n).2.1 p2
        exact ⟨Nat.le_trans p1 q1, q2, by omega⟩

/-- C3: in every worker run, at most 5 matches are inserted per item
(the final per-item counter is at most 5 and equals the number of rows
the store gained, i.e. the inserts that returned true); the cap is a
hard stop checked before issuing a search to the next site and between
candidates (a saturated counter stops both loops at once, issuing
nothing further). -/
theorem C3_per_item_cap :
    (∀ cfg it sites st,
      (processScrapers cfg it sites st 0).2.1 ≤ 5 ∧
      (processScrapers cfg it sites st 0).1.length =
        st.length + (processScrapers cfg it sites st 0).2.1) ∧
    (∀ cfg it sites st n, maxMatchesPerItem ≤ n →
      processScrapers cfg it sites st n = (st, n, [])) ∧
    (∀ cfg it site cands st n, maxMatchesPerItem ≤ n →
      processResults cfg it site cands st n = (st, n, [])) := by
  refine ⟨?_, ?_, ?_⟩
  · intro cfg it sites st
    obtain ⟨_, h2, h3⟩ := processScrapers_cap cfg it sites st 0 (by omega)
    exact ⟨h2, by omega⟩
  · intro cfg it sites st n hcap
    cases sites with
    | nil => rfl
    | cons s rest => exact processScrapers_cap_stop cfg it s rest st n hcap
  · intro cfg it site cands st n hcap
    cases cands with
    | nil => rfl
    | cons r rest => exact processResults_cap_stop cfg it site r rest st n hcap

/-- C3 witness: a saturated counter (n = 5) stops a concrete pending
search and a concrete pending candidate without any effect. -/
theorem C3_per_item_cap_witness :
    (maxMatchesPerItem ≤ 5 ∧
      processScrapers ⟨false, 0, false, false⟩ ⟨1, gs "X"⟩
        [⟨gs "s", .ok [⟨gs "T", gs "u", none, []⟩]⟩] [] 5 = ([], 5, [])) ∧
    processResults ⟨false, 0, false, false⟩ ⟨1, gs "X"⟩ (gs "s")
      [⟨gs "T", gs "u", none, []⟩] [] 5 = ([], 5, []) := by
  refine ⟨⟨by decide, ?_⟩, ?_⟩
  · exact C3_per_item_cap.2.1 ⟨false, 0, false, false⟩ ⟨1, gs "X"⟩
      [⟨gs "s", .ok [⟨gs "T", gs "u", none, []⟩]⟩] [] 5 (by decide)
  · exact C3_per_item_cap.2.2 ⟨false, 0, false, false⟩ ⟨1, gs "X"⟩ (gs "s")
      [⟨gs "T", gs "u", none, []⟩] [] 5 (by decide)

/-- Recognizer for `new_log` events. -/
def isNewLog : Event → Bool
  | .newLog _ _ => true
  | _ => false

theorem processResults_no_newLog (cfg : WorkerCfg) (it : Item) (site : GoStr) :
    ∀ (cands : List CandObs) (st : MatchStore) (n : Nat),
      (processResults cfg it site cands st n).2.2.filter isNewLog = [] := by
  intro cands
  induction cands with
  | nil => intro st n; rfl
  | cons r rest ih =>
    intro st n
    by_cases hcap : maxMatchesPerItem ≤ n
    · rw [processResults_cap_stop cfg it site r rest st n hcap]
      rfl
    · simp only [processResults, if_neg hcap]
      by_cases hdq : disqualifiedQuality r.title = true
      · rw [if_pos hdq]; exact ih st n
      · rw [if_neg hdq]
        by_cases hpf : (!preFilterPass it.text r.title) = true
        · rw [if_pos hpf]; exact ih st n
        · rw [if_neg hpf]
          by_cases hm : (!(decideMatch cfg.useEntity r.entityRes it.text r.title
              cfg.threshold).1) = true
          · rw [if_pos hm]; exact ih st n
          · rw [if_neg hm]
            by_cases hins : (insertMatchWithEntities st it.id r.title r.url site r.title
                r.magnet (if cfg.useEntity then r.entityRes.getD [] else [])).2 = true
            · rw [if_pos hins]
              by_cases hcap2 : maxMatchesPerItem ≤ n + 1
              · rw [if_pos hcap2]
                dsimp only
                by_cases hsms : cfg.smsConfigured = true <;>
                  simp [smsEvents, hsms, isNewLog]
              · rw [if_neg hcap2]
                dsimp only
                by_cases hsms : cfg.smsConfigured = true <;>
                  simp [smsEvents, hsms, isNewLog, ih]
            · rw [if_neg hins]
              exact ih _ n

theorem processScrapers_no_newLog (cfg : WorkerCfg) (it : Item) :
    ∀ (sites : List SiteObs) (st : MatchStore) (n : Nat),
      (processScrapers cfg it sites st n).2.2.filter isNewLog = [] := by
  intro sites
  induction sites with
  | nil => intro st n; rfl
  | cons s rest ih =>
    intro st n
    by_cases hcap : maxMatchesPerItem ≤ n
    · rw [processScrapers_cap_stop cfg it s rest st n hcap]
      rfl
    · simp only [processScrapers, if_neg hcap]
      cases hres : s.result with
      | error e => exact ih st n
      | ok results =>
        dsimp only
        rw [List.filter_append, processResults_no_newLog, ih]
        rfl

/-- C8: processing an item appends exactly one LogEntry, whose success
flag is `matchesFound > 0` (counting only successful inserts), and the
item's event stream contains exactly one `new_log` broadcast, emitted
last. -/
theorem C8_one_log_per_item :
    ∀ cfg it sites st logs,
      (processItem cfg it sites st logs).2.1 =
        logs ++ [(logDescription it (processScrapers cfg it sites st 0).2.1,
          decide (0 < (processScrapers cfg it sites st 0).2.1))] ∧
      ((processItem cfg it sites st logs).2.2.filter isNewLog).length = 1 ∧
      (processItem cfg it sites st logs).2.2.getLast? =
        some (.newLog (logDescription it (processScrapers cfg it sites st 0).2.1)
          (decide (0 < (processScrapers cfg it sites st 0).2.1))) := by
  intro cfg it sites st logs
  refine ⟨rfl, ?_, ?_⟩
  · show (((processScrapers cfg it sites st 0).2.2 ++
      [Event.newLog (logDescription it (processScrapers cfg it sites st 0).2.1)
        (decide (0 < (processScrapers cfg it sites st 0).2.1))]).filter isNewLog).length = 1
    rw [List.filter_append, processScrapers_no_newLog]
    rfl
  · exact List.getLast?_concat _

theorem entityDecision_eq (es : List Entity) (itemText : GoStr) (ft : Entity)
    (hft : findEntityByType es (gs "FILM TITLE") = some ft) :
    entityDecision es itemText =
      (if ((goTrimSpace (removeYear itemText)).map goToLower =
            (goTrimSpace ft.text).map goToLower ∧
          (extractYear itemText = [] ∨
            (findEntityByType es (gs "YEAR")).map (fun y => y.text) =
              some (extractYear itemText)))
        then .accept else .reject) := by
  unfold entityDecision
  rw [hft]
  dsimp only
  by_cases h1 : (goTrimSpace (removeYear itemText)).map goToLower =
      (goTrimSpace ft.text).map goToLower
  · rw [if_pos h1]
    by_cases h2 : extractYear itemText = []
    · rw [if_pos h2, if_pos ⟨h1, Or.inl h2⟩]
    · rw [if_neg h2]
      cases hy : findEntityByType es (gs "YEAR") with
      | some y =>
        dsimp only
        by_cases h3 : y.text = extractYear itemText
        · rw [if_pos h3, if_pos ⟨h1, Or.inr (by simp [h3])⟩]
        · have hnp : ¬((goTrimSpace (removeYear itemText)).map goToLower =
              (goTrimSpace ft.text).map goToLower ∧
            (extractYear itemText = [] ∨
              (some y).map (fun y => y.text) = some (extractYear itemText))) := by
            rintro ⟨-, h4 | h4⟩
            · exact h2 h4
            · simp only [Option.map_some'] at h4
              exact h3 (Option.some.inj h4)
          rw [if_neg h3, if_neg hnp]
      | none =>
        dsimp only
        have hnp : ¬((goTrimSpace (removeYear itemText)).map goToLower =
            (goTrimSpace ft.text).map goToLower ∧
          (extractYear itemText = [] ∨
            (none : Option Entity).map (fun y => y.text) =
              some (extractYear itemText))) := by
          rintro ⟨-, h4 | h4⟩
          · exact h2 h4
          · simp at h4
        rw [if_neg hnp]
  · have hnp : ¬((goTrimSpace (removeYear itemText)).map goToLower =
        (goTrimSpace ft.text).map goToLower ∧
      (extractYear itemText = [] ∨
        (findEntityByType es (gs "YEAR")).map (fun y => y.text) =
          some (extractYear itemText))) := by
      rintro ⟨h4, -⟩
      exact h1 h4
    rw [if_neg h1, if_neg hnp]

theorem entityDecision_fallthru_iff (es : List Entity) (itemText : GoStr) :
    entityDecision es itemText = .fallthru ↔
      findEntityByType es (gs "FILM TITLE") = none := by
  cases hft : findEntityByType es (gs "FILM TITLE") with
  | none =>
    unfold entityDecision
    rw [hft]
    simp
  | some ft =>
    rw [entityDecision_eq es itemText ft hft]
    constructor
    · intro h
      split_ifs at h
    · intro h
      cases h

theorem decideMatch_entity_eq (e : Entity) (es' : List Entity)
    (itemText title : GoStr) (threshold : ℚ) :
    decideMatch true (some (e :: es')) itemText title threshold =
      (match entityDecision (e :: es') itemText with
        | .accept => (true, false)
        | .reject => (false, false)
        | .fallthru => (decide (fuzzyScore itemText title ≥ threshold), true)) := rfl

/-- C4: when entity matching is enabled and extraction yields a FILM
TITLE entity, its decision is final: the candidate is accepted iff the
year-stripped item label equals the entity text (case-insensitively,
trimmed) and the item either has no year or the extracted YEAR entity
matches it; the fuzzy scorer is not consulted (and the threshold is
irrelevant); the fuzzy fallback runs exactly when entity matching is
disabled, extraction failed or yielded no entities, or no FILM TITLE
entity was produced. -/
theorem C4_entity_decision_final :
    (∀ (es : List Entity) (ft : Entity) (itemText title : GoStr) (threshold : ℚ),
      es ≠ [] →
      findEntityByType es (gs "FILM TITLE") = some ft →
      decideMatch true (some es) itemText title threshold =
        (decide (((goTrimSpace (removeYear itemText)).map goToLower =
            (goTrimSpace ft.text).map goToLower) ∧
          (extractYear itemText = [] ∨
            (findEntityByType es (gs "YEAR")).map (fun y => y.text) =
              some (extractYear itemText))), false)) ∧
    (∀ useEntity entityRes itemText title threshold,
      ((decideMatch useEntity entityRes itemText title threshold).2 = true ↔
        (useEntity = false ∨ entityRes.getD [] = [] ∨
          findEntityByType (entityRes.getD []) (gs "FILM TITLE") = none))) := by
  constructor
  · intro es ft itemText title threshold hne hft
    cases es with
    | nil => exact absurd rfl hne
    | cons e es' =>
      rw [decideMatch_entity_eq e es' itemText title threshold]
      rw [entityDecision_eq (e :: es') itemText ft hft]
      by_cases hP : (((goTrimSpace (removeYear itemText)).map goToLower =
          (goTrimSpace ft.text).map goToLower) ∧
        (extractYear itemText = [] ∨
          (findEntityByType (e :: es') (gs "YEAR")).map (fun y => y.text) =
            some (extractYear itemText)))
      · rw [if_pos hP, decide_eq_true hP]
      · rw [if_neg hP, decide_eq_false hP]
  · intro useEntity entityRes itemText title threshold
    cases useEntity with
    | false => exact iff_of_true rfl (Or.inl rfl)
    | true =>
      cases entityRes with
      | none => exact iff_of_true rfl (Or.inr (Or.inl rfl))
      | some es =>
        cases es with
        | nil => exact iff_of_true rfl (Or.inr (Or.inl rfl))
        | cons e es' =>
          rw [decideMatch_entity_eq e es' itemText title threshold]
          cases hdec : entityDecision (e :: es') itemText with
          | accept =>
            refine iff_of_false (by simp) ?_
            rintro (h | h | h)
            · cases h
            · simp at h
            · have hfall : entityDecision (e :: es') itemText = .fallthru :=
                (entityDecision_fallthru_iff _ _).mpr (by simpa using h)
              rw [hdec] at hfall
              cases hfall
          | reject =>
            refine iff_of_false (by simp) ?_
            rintro (h | h | h)
            · cases h
            · simp at h
            · have hfall : entityDecision (e :: es') itemText = .fallthru :=
                (entityDecision_fallthru_iff _ _).mpr (by simpa using h)
              rw [hdec] at hfall
              cases hfall
          | fallthru =>
            refine iff_of_true rfl (Or.inr (Or.inr ?_))
            simpa using (entityDecision_fallthru_iff (e :: es') itemText).mp hdec

/-- C4 witness: the specification's own scenario — item "Dune 2021"
with entities FILM TITLE "Dune" and YEAR "1984" — is rejected by the
entity branch with the fuzzy fallback not consulted. -/
theorem C4_entity_decision_final_witness :
    ([⟨gs "Dune", gs "FILM TITLE", 0, 0, 1⟩, ⟨gs "1984", gs "YEAR", 0, 0, 1⟩]
        ≠ ([] : List Entity)) ∧
    findEntityByType [⟨gs "Dune", gs "FILM TITLE", 0, 0, 1⟩, ⟨gs "1984", gs "YEAR", 0, 0, 1⟩]
        (gs "FILM TITLE") = some ⟨gs "Dune", gs "FILM TITLE", 0, 0, 1⟩ ∧
    decideMatch true (some [⟨gs "Dune", gs "FILM TITLE", 0, 0, 1⟩,
        ⟨gs "1984", gs "YEAR", 0, 0, 1⟩]) (gs "Dune 2021") (gs "Dune.1984.1080p") 0 =
      (false, false) := by
  refine ⟨by simp, rfl, ?_⟩
  rw [C4_entity_decision_final.1 [⟨gs "Dune", gs "FILM TITLE", 0, 0, 1⟩,
    ⟨gs "1984", gs "YEAR", 0, 0, 1⟩] ⟨gs "Dune", gs "FILM TITLE", 0, 0, 1⟩
    (gs "Dune 2021") (gs "Dune.1984.1080p") 0 (by simp) rfl]
  decide

/-- The claim's (incorrect) reading of `normalize`: non-alphanumeric,
non-whitespace characters are *deleted* instead of becoming spaces. -/
def normalizeClaim (s : GoStr) : GoStr :=
  let s1 := s.map goToLower
  let s2 := s1.map (fun c => if c = '_' then ' ' else c)
  let s3 := s2.map (fun c => if c = '-' then ' ' else c)
  let s4 := s3.filter (fun c => isLowerAlnum c || isReSpace c)
  replaceRuns isReSpace ' ' (goTrimSpace s4)

/-- The amended reading of `normalize`: every character that is neither
alphanumeric nor whitespace is replaced by a space (acting as a token
separator), then whitespace is trimmed and collapsed. -/
def normalizeSpec (s : GoStr) : GoStr :=
  let s1 := s.map goToLower
  let s2 := s1.map (fun c => if isLowerAlnum c then c else if isReSpace c then c else ' ')
  replaceRuns isReSpace ' ' (goTrimSpace s2)

/-- C5 counterexample: `normalize` turns the dot of `"a.b"` into a
token separator (`"a b"`), while the claim's deletion reading would
give `"ab"`; the claim as stated is false at `"a.b"`. -/
theorem C5_normalize_counterexample :
    normalize (gs "a.b") = gs "a b" ∧
    normalizeClaim (gs "a.b") = gs "ab" ∧
    ¬ normalize (gs "a.b") = normalizeClaim (gs "a.b") := by
  refine ⟨by decide, by decide, by decide⟩

/-- The character class replaced by `normalize`'s run regex
`[^a-z0-9\s]+`. -/
def replClass (c : Char) : Bool := !(isLowerAlnum c || isReSpace c)

/-- Per-character form of the run replacement. -/
def spRepl (c : Char) : Char := if replClass c then ' ' else c

theorem replaceRunsAux_true (p : Char → Bool) (r : Char) :
    ∀ t, replaceRunsAux p r true t = replaceRunsAux p r false (t.dropWhile p) := by
  intro t
  induction t with
  | nil => rfl
  | cons c t ih =>
    by_cases h : p c = true
    · simp [replaceRunsAux, h, List.dropWhile_cons, ih]
    · simp [replaceRunsAux, h, List.dropWhile_cons]

theorem RR_cons_pos (p : Char → Bool) (r c : Char) (t : List Char) (h : p c = true) :
    replaceRuns p r (c :: t) = r :: replaceRuns p r (t.dropWhile p) := by
  unfold replaceRuns
  simp [replaceRunsAux, h, replaceRunsAux_true]

theorem RR_cons_neg (p : Char → Bool) (r c : Char) (t : List Char) (h : ¬ p c = true) :
    replaceRuns p r (c :: t) = c :: replaceRuns p r t := by
  unfold replaceRuns
  simp [replaceRunsAux, h]

theorem TR_cons_pos (g : Char → Bool) (c : Char) (x : List Char) (h : g c = true) :
    trimRightP g (c :: x) = if trimRightP g x = [] then [] else c :: trimRightP g x := by
  cases htr : trimRightP g x with
  | nil => simp only [trimRightP]; rw [htr]; simp [h]
  | cons a r => simp only [trimRightP]; rw [htr]; simp

theorem TR_cons_neg (g : Char → Bool) (c : Char) (x : List Char) (h : ¬ g c = true) :
    trimRightP g (c :: x) = c :: trimRightP g x := by
  cases htr : trimRightP g x with
  | nil => simp only [trimRightP]; rw [htr]; simp [h]
  | cons a r => simp only [trimRightP]; rw [htr]

theorem TR_empty_iff (g : Char → Bool) : ∀ x, trimRightP g x = [] ↔ x.all g = true := by
  intro x
  induction x with
  | nil => simp [trimRightP]
  | cons c t ih =>
    by_cases hg : g c = true
    · rw [TR_cons_pos g c t hg]
      by_cases ht : trimRightP g t = []
      · simp [ht, List.all_cons, hg, ih.mp ht]
      · rw [if_neg ht]
        simp only [List.all_cons, hg, Bool.true_and]
        constructor
        · intro hcontra
          exact absurd hcontra (List.cons_ne_nil _ _)
        · intro hall
          exact absurd (ih.mpr hall) ht
    · rw [TR_cons_neg g c t hg]
      simp [List.all_cons, hg]

theorem all_dropWhile (g q : Char → Bool) :
    ∀ x : List Char, x.all g = true → (x.dropWhile q).all g = true := by
  intro x
  induction x with
  | nil => intro h; exact h
  | cons c t ih =>
    intro h
    simp only [List.all_cons, Bool.and_eq_true] at h
    by_cases hq : q c = true
    · simpa [List.dropWhile_cons, hq] using ih h.2
    · simp [List.dropWhile_cons, hq, List.all_cons, h.1, h.2]

theorem TR_dropWhile_comm (g : Char → Bool) :
    ∀ x, (trimRightP g x).dropWhile g = trimRightP g (x.dropWhile g) := by
  intro x
  induction x with
  | nil => rfl
  | cons c t ih =>
    by_cases hg : g c = true
    · rw [TR_cons_pos g c t hg]
      by_cases ht : trimRightP g t = []
      · rw [if_pos ht]
        have hall : t.all g = true := (TR_empty_iff g t).mp ht
        have : trimRightP g (t.dropWhile g) = [] :=
          (TR_empty_iff g _).mpr (all_dropWhile g g t hall)
        simp only [List.dropWhile_cons, hg, if_true, List.dropWhile_nil]
        rw [this]
      · rw [if_neg ht]
        simp only [List.dropWhile_cons, hg, if_true]
        rw [← ih]
    · rw [TR_cons_neg g c t hg]
      have h1 : List.dropWhile g (c :: trimRightP g t) = c :: trimRightP g t := by
        simp [List.dropWhile_cons, hg]
      have h2 : List.dropWhile g (c :: t) = c :: t := by
        simp [List.dropWhile_cons, hg]
      rw [h1, h2, TR_cons_neg g c t hg]

/-- Collapse-and-right-trim, the tail of the `normalize` pipeline. -/
def ctR (x : List Char) : List Char :=
  replaceRuns isReSpace ' ' (trimRightP isReSpace x)

/-- Collapse-and-trim-both-ends. -/
def ctF (x : List Char) : List Char := ctR (x.dropWhile isReSpace)

theorem ctR_cons_sp (c : Char) (x : List Char) (hc : isReSpace c = true) :
    ctR (c :: x) = if x.all isReSpace = true then [] else ' ' :: ctF x := by
  unfold ctR ctF
  rw [TR_cons_pos _ _ _ hc]
  by_cases hx : trimRightP isReSpace x = []
  · rw [if_pos hx, if_pos ((TR_empty_iff _ x).mp hx)]
    rfl
  · rw [if_neg hx, if_neg (fun hall => hx ((TR_empty_iff _ x).mpr hall))]
    rw [RR_cons_pos _ _ _ _ hc]
    rw [TR_dropWhile_comm]
    rfl

theorem ctR_cons_nonsp (c : Char) (x : List Char) (hc : ¬ isReSpace c = true) :
    ctR (c :: x) = c :: ctR x := by
  unfold ctR
  rw [TR_cons_neg _ _ _ hc, RR_cons_neg _ _ _ _ hc]

theorem ctF_cons_sp (c : Char) (x : List Char) (hc : isReSpace c = true) :
    ctF (c :: x) = ctF x := by
  unfold ctF
  simp only [List.dropWhile_cons, hc, if_true]

theorem ctF_cons_nonsp (c : Char) (x : List Char) (hc : ¬ isReSpace c = true) :
    ctF (c :: x) = c :: ctR x := by
  unfold ctF
  simp only [List.dropWhile_cons, hc, if_false]
  show ctR (c :: x) = c :: ctR x
  exact ctR_cons_nonsp c x hc

/-- Run-replacement of the non-alphanumeric class. -/
def goA (x : List Char) : List Char := replaceRuns replClass ' ' x

/-- Per-character replacement of the same class. -/
def goB (x : List Char) : List Char := x.map spRepl

theorem sp_not_alnum (c : Char) (h : isReSpace c = true) : isLowerAlnum c = false := by
  unfold isReSpace at h
  simp only [Bool.or_eq_true, decide_eq_true_eq] at h
  rcases h with (((h | h) | h) | h) | h <;> subst h <;> decide

theorem class_P (c : Char) (h : replClass c = true) :
    isLowerAlnum c = false ∧ isReSpace c = false := by
  unfold replClass at h
  cases hal : isLowerAlnum c <;> cases hsp : isReSpace c <;>
    simp [hal, hsp] at h ⊢

theorem notP_class (c : Char) (h : ¬ replClass c = true) :
    (isLowerAlnum c || isReSpace c) = true := by
  unfold replClass at h
  cases hx : (isLowerAlnum c || isReSpace c)
  · exact absurd (by simp [hx]) h
  · rfl

theorem spRepl_sp (c : Char) : isReSpace (spRepl c) = !isLowerAlnum c := by
  by_cases h : replClass c = true
  · obtain ⟨hal, -⟩ := class_P c h
    have hr : spRepl c = ' ' := by simp [spRepl, h]
    rw [hr, hal]
    decide
  · have hclass := notP_class c h
    cases hal : isLowerAlnum c
    · have hsp : isReSpace c = true := by simpa [hal] using hclass
      simp [spRepl, h, hsp]
    · have hsp : isReSpace c = false := by
        cases hspc : isReSpace c
        · rfl
        · exact absurd hal (by simp [sp_not_alnum c hspc])
      simp [spRepl, h, hal, hsp]

theorem A_allsp : ∀ (b : Bool) (t : List Char),
    (replaceRunsAux replClass ' ' b t).all isReSpace =
      t.all (fun c => !isLowerAlnum c) := by
  intro b t
  induction t generalizing b with
  | nil => rfl
  | cons c t ih =>
    by_cases h : replClass c = true
    · obtain ⟨hal, -⟩ := class_P c h
      have hsp' : isReSpace ' ' = true := by decide
      cases b <;> simp [replaceRunsAux, h, ih, List.all_cons, hal, hsp']
    · have hclass := notP_class c h
      cases hal : isLowerAlnum c
      · have hsp : isReSpace c = true := by simpa [hal] using hclass
        cases b <;> simp [replaceRunsAux, h, ih, List.all_cons, hal, hsp]
      · have hsp : isReSpace c = false := by
          cases hspc : isReSpace c
          · rfl
          · exact absurd hal (by simp [sp_not_alnum c hspc])
        cases b <;> simp [replaceRunsAux, h, List.all_cons, hal, hsp]

theorem B_allsp : ∀ t : List Char,
    ((t.map spRepl).all isReSpace) = t.all (fun c => !isLowerAlnum c) := by
  intro t
  induction t with
  | nil => rfl
  | cons c t ih =>
    simp only [List.map_cons, List.all_cons, ih, spRepl_sp]

theorem dropP_all : ∀ t : List Char,
    ((t.dropWhile replClass).all (fun c => !isLowerAlnum c)) =
      t.all (fun c => !isLowerAlnum c) := by
  intro t
  induction t with
  | nil => rfl
  | cons c t ih =>
    by_cases h : replClass c = true
    · obtain ⟨hal, -⟩ := class_P c h
      simp [List.dropWhile_cons, h, ih, List.all_cons, hal]
    · simp [List.dropWhile_cons, h, List.all_cons]

theorem B_dropP : ∀ t : List Char,
    (((t.dropWhile replClass).map spRepl).dropWhile isReSpace) =
      ((t.map spRepl).dropWhile isReSpace) := by
  intro t
  induction t with
  | nil => rfl
  | cons c t ih =>
    by_cases h : replClass c = true
    · have hsp : spRepl c = ' ' := by simp [spRepl, h]
      simp only [List.dropWhile_cons, h, if_true, List.map_cons, hsp]
      rw [ih]
      have : isReSpace ' ' = true := by decide
      simp [List.dropWhile_cons, this]
    · simp [List.dropWhile_cons, h]

theorem M_main : ∀ (n : Nat) (u : List Char), u.length ≤ n →
    ctR (goA u) = ctR (goB u) ∧ ctF (goA u) = ctF (goB u) := by
  intro n
  induction n with
  | zero =>
    intro u h
    have hu : u = [] := List.length_eq_zero.mp (Nat.le_zero.mp h)
    subst hu
    exact ⟨rfl, rfl⟩
  | succ n ih =>
    intro u h
    cases u with
    | nil => exact ⟨rfl, rfl⟩
    | cons c t =>
      have ht : t.length ≤ n := by simpa using h
      by_cases hP : replClass c = true
      · have hA : goA (c :: t) = ' ' :: goA (t.dropWhile replClass) :=
          RR_cons_pos replClass ' ' c t hP
        have hB : goB (c :: t) = ' ' :: goB t := by
          simp [goB, List.map_cons, spRepl, hP]
        have ht' : (t.dropWhile replClass).length ≤ n :=
          le_trans (length_dropWhile_le _ t) ht
        have hspc : isReSpace ' ' = true := by decide
        have hcond : (goA (t.dropWhile replClass)).all isReSpace =
            (goB t).all isReSpace := by
          show (replaceRunsAux replClass ' ' false _).all isReSpace =
            (List.map spRepl t).all isReSpace
          rw [A_allsp, B_allsp, dropP_all]
        have htail : ctF (goA (t.dropWhile replClass)) = ctF (goB t) := by
          calc ctF (goA (t.dropWhile replClass))
              = ctF (goB (t.dropWhile replClass)) := (ih _ ht').2
            _ = ctF (goB t) := by
                unfold ctF ctR goB
                rw [B_dropP]
        constructor
        · rw [hA, hB, ctR_cons_sp _ _ hspc, ctR_cons_sp _ _ hspc, hcond]
          by_cases hc : (goB t).all isReSpace = true
          · rw [if_pos hc, if_pos hc]
          · rw [if_neg hc, if_neg hc, htail]
        · rw [hA, hB, ctF_cons_sp _ _ hspc, ctF_cons_sp _ _ hspc, htail]
      · have hA : goA (c :: t) = c :: goA t := RR_cons_neg replClass ' ' c t hP
        have hB : goB (c :: t) = c :: goB t := by
          simp [goB, List.map_cons, spRepl, hP]
        by_cases hsp : isReSpace c = true
        · have hcond : (goA t).all isReSpace = (goB t).all isReSpace := by
            show (replaceRunsAux replClass ' ' false _).all isReSpace =
              (List.map spRepl t).all isReSpace
            rw [A_allsp, B_allsp]
          constructor
          · rw [hA, hB, ctR_cons_sp _ _ hsp, ctR_cons_sp _ _ hsp, hcond]
            by_cases hc : (goB t).all isReSpace = true
            · rw [if_pos hc, if_pos hc]
            · rw [if_neg hc, if_neg hc, (ih t ht).2]
          · rw [hA, hB, ctF_cons_sp _ _ hsp, ctF_cons_sp _ _ hsp]
            exact (ih t ht).2
        · constructor
          · rw [hA, hB, ctR_cons_nonsp _ _ hsp, ctR_cons_nonsp _ _ hsp, (ih t ht).1]
          · rw [hA, hB, ctF_cons_nonsp _ _ hsp, ctF_cons_nonsp _ _ hsp, (ih t ht).1]

theorem dropWhile_congrP (p q : Char → Bool) :
    ∀ l : List Char, (∀ c ∈ l, p c = q c) → l.dropWhile p = l.dropWhile q := by
  intro l
  induction l with
  | nil => intro _; rfl
  | cons c t ih =>
    intro hall
    have hc := hall c (List.mem_cons_self c t)
    have ht := ih (fun x hx => hall x (List.mem_cons_of_mem c hx))
    simp only [List.dropWhile_cons, hc, ht]

theorem trimRight_congrP (p q : Char → Bool) :
    ∀ l : List Char, (∀ c ∈ l, p c = q c) → trimRightP p l = trimRightP q l := by
  intro l
  induction l with
  | nil => intro _; rfl
  | cons c t ih =>
    intro hall
    have hc := hall c (List.mem_cons_self c t)
    have ht := ih (fun x hx => hall x (List.mem_cons_of_mem c hx))
    simp only [trimRightP, ht, hc]

theorem mem_dropWhile_sub (q : Char → Bool) :
    ∀ (l : List Char) (c : Char), c ∈ l.dropWhile q → c ∈ l := by
  intro l
  induction l with
  | nil => intro c hc; cases hc
  | cons d t ih =>
    intro c hc
    by_cases hq : q d = true
    · simp only [List.dropWhile_cons, hq, if_true] at hc
      exact List.mem_cons_of_mem d (ih c hc)
    · simp only [List.dropWhile_cons, hq, if_false] at hc
      exact hc

theorem A_mem : ∀ (b : Bool) (u : List Char) (c : Char),
    c ∈ replaceRunsAux replClass ' ' b u → (isLowerAlnum c || isReSpace c) = true := by
  intro b u
  induction u generalizing b with
  | nil => intro c hc; cases hc
  | cons d t ih =>
    intro c hc
    by_cases h : replClass d = true
    · cases b with
      | true =>
        simp only [replaceRunsAux, h, if_true] at hc
        exact ih true c hc
      | false =>
        simp only [replaceRunsAux, h, if_true, Bool.false_eq_true, if_false] at hc
        rcases List.mem_cons.mp hc with rfl | hc'
        · decide
        · exact ih true c hc'
    · simp only [replaceRunsAux, h, if_false] at hc
      rcases List.mem_cons.mp hc with rfl | hc'
      · exact notP_class c h
      · exact ih false c hc'

theorem B_mem : ∀ (u : List Char) (c : Char),
    c ∈ u.map spRepl → (isLowerAlnum c || isReSpace c) = true := by
  intro u c hc
  rcases List.mem_map.mp hc with ⟨x, hx, rfl⟩
  by_cases h : replClass x = true
  · have hr : spRepl x = ' ' := by simp [spRepl, h]
    rw [hr]
    decide
  · have hr : spRepl x = x := by simp [spRepl, h]
    rw [hr]
    exact notP_class x h

theorem class_g_sp (c : Char) (h : (isLowerAlnum c || isReSpace c) = true) :
    goIsSpace c = isReSpace c := by
  cases hsp : isReSpace c
  · have hal : isLowerAlnum c = true := by simpa [hsp] using h
    unfold goIsSpace
    rw [hsp]
    simp only [Bool.false_or]
    cases hc : decide (c = '\x0b')
    · rfl
    · have hcc : c = '\x0b' := of_decide_eq_true hc
      subst hcc
      exact absurd hal (by decide)
  · unfold goIsSpace
    rw [hsp]
    rfl

theorem goTrimSpace_classed (x : List Char)
    (hx : ∀ c ∈ x, (isLowerAlnum c || isReSpace c) = true) :
    goTrimSpace x = trimRightP isReSpace (x.dropWhile isReSpace) := by
  unfold goTrimSpace
  rw [dropWhile_congrP goIsSpace isReSpace x (fun c hc => class_g_sp c (hx c hc))]
  exact trimRight_congrP goIsSpace isReSpace _
    (fun c hc => class_g_sp c (hx c (mem_dropWhile_sub isReSpace x c hc)))

/-- C5 (amended): for every string `s`, `normalize s` lowercases,
replaces `_` and `-` with spaces, replaces every other character that
is neither alphanumeric nor whitespace with a space — so such a
character acts as a token separator rather than being deleted — and
trims and collapses whitespace; i.e. `normalize` agrees everywhere
with the per-character-replacement reading `normalizeSpec`. -/
theorem C5_normalize_separator : ∀ s, normalize s = normalizeSpec s := by
  intro s
  have hchain : ∀ l : List Char,
      (((l.map (fun c => if c = '_' then ' ' else c)).map
        (fun c => if c = '-' then ' ' else c)).map spRepl) =
      l.map (fun c => if isLowerAlnum c then c else if isReSpace c then c else ' ') := by
    intro l
    induction l with
    | nil => rfl
    | cons c t ih =>
      simp only [List.map_cons, ih, List.cons.injEq, and_true]
      by_cases h1 : c = '_'
      · subst h1; decide
      · by_cases h2 : c = '-'
        · subst h2; decide
        · simp only [h1, h2, if_false]
          cases hal : isLowerAlnum c <;> cases hsp : isReSpace c <;>
            simp [spRepl, replClass, hal, hsp]
  set X : List Char := ((s.map goToLower).map (fun c => if c = '_' then ' ' else c)).map
    (fun c => if c = '-' then ' ' else c) with hX
  have hgb : goB X = (s.map goToLower).map
      (fun c => if isLowerAlnum c then c else if isReSpace c then c else ' ') := by
    rw [hX]
    exact hchain (s.map goToLower)
  have h1 : normalize s = replaceRuns isReSpace ' ' (goTrimSpace (goA X)) := rfl
  have h2 : normalizeSpec s = replaceRuns isReSpace ' ' (goTrimSpace (goB X)) := by
    rw [hgb]
    rfl
  rw [h1, h2]
  rw [goTrimSpace_classed (goA X) (fun c hc => A_mem false X c hc),
    goTrimSpace_classed (goB X) (fun c hc => B_mem X c hc)]
  exact (M_main X.length X le_rfl).2

/-- The claim's (incorrect) reading of `fuzzyScore`: the overlap
numerator counts *unique* (deduplicated) query tokens that appear among
the candidate's tokens. -/
def fuzzyScoreClaim (query candidate : GoStr) : ℚ :=
  let q := normalize query
  let c := normalize candidate
  if q = [] ∨ c = [] then 0
  else if q = c then 1
  else
    let qt := goFields q
    let ct := goFields c
    let uniqHit := ((qt.dedup).filter (fun t => decide (t ∈ ct))).length
    let overlap : ℚ := (uniqHit : ℚ) / (qt.length : ℚ)
    let contns : ℚ := if fuzzyMatch q c || goContains c q then 1 else 0
    goMaxQ 0 (goMinQ 1 (7 / 10 * overlap + 3 / 10 * contns))

/-- Evaluation rule for `fuzzyScoreClaim` in the blended case. -/
theorem fuzzyScoreClaim_eval (query candidate q c : GoStr)
    (hq : normalize query = q) (hc : normalize candidate = c)
    (hqe : ¬(q = [] ∨ c = [])) (hne : ¬(q = c))
    (hit len : ℕ)
    (hhit : (((goFields q).dedup).filter (fun t => decide (t ∈ goFields c))).length = hit)
    (hlen : (goFields q).length = len) (cb : Bool)
    (hcb : (fuzzyMatch q c || goContains c q) = cb) :
    fuzzyScoreClaim query candidate =
      goMaxQ 0 (goMinQ 1
        (7 / 10 * ((hit : ℚ) / (len : ℚ)) + 3 / 10 * (if cb then 1 else 0))) := by
  unfold fuzzyScoreClaim
  rw [hq, hc, if_neg hqe, if_neg hne]
  simp only [hhit, hlen, hcb]

/-- C6 counterexample: at `q = "a a b"`, `c = "a"` the code's overlap
counts the duplicated token `a` twice (score `7/15`) while the claim's
unique-token overlap counts it once (score `7/30`); the claim as
stated is false at this input. -/
theorem C6_fuzzy_score_counterexample :
    fuzzyScore (gs "a a b") (gs "a") = 7 / 15 ∧
    fuzzyScoreClaim (gs "a a b") (gs "a") = 7 / 30 ∧
    ¬ fuzzyScore (gs "a a b") (gs "a") = fuzzyScoreClaim (gs "a a b") (gs "a") := by
  have h1 : fuzzyScore (gs "a a b") (gs "a") = 7 / 15 := by
    rw [fuzzyScore_eval (gs "a a b") (gs "a") (gs "a a b") (gs "a")
      (by decide) (by decide) (by decide) (by decide)
      2 3 (by decide) (by decide) false (by decide)]
    norm_num [goMaxQ, goMinQ]
  have h2 : fuzzyScoreClaim (gs "a a b") (gs "a") = 7 / 30 := by
    rw [fuzzyScoreClaim_eval (gs "a a b") (gs "a") (gs "a a b") (gs "a")
      (by decide) (by decide) (by decide) (by decide)
      1 3 (by decide) (by decide) false (by decide)]
    norm_num [goMaxQ, goMinQ]
  refine ⟨h1, h2, ?_⟩
  rw [h1, h2]
  norm_num

/-- The amended reading of `fuzzyScore`: the overlap numerator counts
query tokens with multiplicity. -/
def fuzzyScoreSpec (query candidate : GoStr) : ℚ :=
  let q := normalize query
  let c := normalize candidate
  if q = [] ∨ c = [] then 0
  else if q = c then 1
  else
    let qt := goFields q
    let ct := goFields c
    let hit := qt.countP (fun t => decide (t ∈ ct))
    let overlap : ℚ := (hit : ℚ) / (qt.length : ℚ)
    let contns : ℚ := if fuzzyMatch q c || goContains c q then 1 else 0
    goMaxQ 0 (goMinQ 1 (7 / 10 * overlap + 3 / 10 * contns))

/-- C6 (amended): `fuzzyScore` on the normalized forms returns 0 if
either is empty, 1 if they are equal, and otherwise
`clamp(0.70*overlap + 0.30*contains)` where `overlap` counts the query
tokens **with multiplicity** that appear among the candidate's tokens,
divided by the number of query tokens, and `contains` is 1 iff the
query is an in-order character subsequence of the candidate or the
candidate literally contains the query; consequently
`fuzzyScore x x = 1` for every non-empty normalized `x`. -/
theorem C6_fuzzy_score_amended :
    (∀ query candidate, fuzzyScore query candidate = fuzzyScoreSpec query candidate) ∧
    (∀ x : GoStr, normalize x = x → x ≠ [] → fuzzyScore x x = 1) := by
  constructor
  · intro query candidate
    unfold fuzzyScore fuzzyScoreSpec
    simp only [List.countP_eq_length_filter]
  · intro x hx hne
    unfold fuzzyScore
    rw [hx]
    rw [if_neg (by simp [hne]), if_pos rfl]

/-- C6 witness: the normalized non-empty string `"a"` scores 1 against
itself. -/
theorem C6_fuzzy_score_amended_witness :
    normalize (gs "a") = gs "a" ∧ gs "a" ≠ [] ∧
    fuzzyScore (gs "a") (gs "a") = 1 := by
  refine ⟨by decide, by decide, ?_⟩
  exact C6_fuzzy_score_amended.2 (gs "a") (by decide) (by decide)

end SLS
